import Mathlib

/-!
Shallow embedding of the highcharts-axis-labels-shorten plugin
(src/highcharts-axis-labels-shorten.js) together with proofs about its
label shortening loop, its measurement cache, the axis initialization
wrapper and the installed tick positioner.

Strings are modelled as lists of characters.  JavaScript numbers are
modelled as exact rationals, extended with NaN and the signed
infinities exactly where the source can produce them: the divisions
`w / short.length` and `overlap / oneLetterApprox` inside the
shortening loop, which divide by zero when the candidate string is
empty or measures to width zero.
-/

namespace AxisLabelsShorten

/-- JavaScript number values reachable in the shortening loop: a finite
value (modelled exactly as a rational) or one of the special values
NaN, positive infinity and negative infinity that division by zero
produces. -/
inductive JSNum where
  | nan : JSNum
  | pinf : JSNum
  | ninf : JSNum
  | fin : ℚ → JSNum
deriving DecidableEq

/-- JavaScript division of a finite number by a possibly special number:
division by zero yields a signed infinity, 0/0 and division by NaN
yield NaN, and division by an infinity yields 0. -/
def jsDiv (x : ℚ) : JSNum → JSNum
  | .nan => .nan
  | .pinf => .fin 0
  | .ninf => .fin 0
  | .fin q =>
      if q = 0 then
        if 0 < x then .pinf else if x < 0 then .ninf else .nan
      else .fin (x / q)

/-- JavaScript Math.ceil extended to the special values. -/
def jsCeil : JSNum → JSNum
  | .nan => .nan
  | .pinf => .pinf
  | .ninf => .ninf
  | .fin q => .fin ((⌈q⌉ : ℤ) : ℚ)

/-- The three-character ellipsis suffix appended by getShortened. -/
def ellipsis : List Char := ['.', '.', '.']

/-- Math.max(0, len - c - 3) where c is the (possibly special) result of
Math.ceil(overlap / oneLetterApprox), following JavaScript arithmetic
on NaN and infinities: subtracting an infinity flips its sign, NaN
propagates, and Math.max(0, x) maps negative infinity to 0. -/
def keepCharsOf (len : ℕ) : JSNum → JSNum
  | .nan => .nan
  | .pinf => .fin 0
  | .ninf => .pinf
  | .fin q => .fin (max 0 ((len : ℚ) - q - 3))

/-- The JavaScript test keepChars < 1; false on NaN, so the NaN branch
falls through to the substring step instead of returning the marker. -/
def jsLtOne : JSNum → Bool
  | .nan => false
  | .pinf => false
  | .ninf => true
  | .fin q => decide (q < 1)

/-- String.prototype.substring(0, keepChars): the end argument is
converted with ToIntegerOrInfinity (NaN becomes 0, infinity is clamped
to the string length) and clamped to the interval [0, length]. -/
def jsTakeCount (len : ℕ) : JSNum → ℕ
  | .nan => 0
  | .pinf => len
  | .ninf => 0
  | .fin q => min len (max 0 ⌊q⌋).toNat

/-- The keepChars value computed by one iteration of the shortening loop
on a candidate of length len measuring w pixels against the available
width: Math.max(0, len - Math.ceil(overlap / oneLetterApprox) - 3) with
oneLetterApprox = w / len and overlap = w - width. -/
def oneIterKeep (w width : ℚ) (len : ℕ) : JSNum :=
  keepCharsOf len (jsCeil (jsDiv (w - width) (jsDiv w (.fin (len : ℚ)))))

/-- The do-while loop of getShortened, indexed by fuel; none means the
loop has not returned within the given number of iterations. -/
def getShortenedAux (measure : List Char → ℚ) (width : ℚ) :
    ℕ → List Char → Bool → Option (List Char)
  | 0, _, _ => none
  | fuel + 1, short, shortened =>
      let w := measure short
      if w < width then
        some (short ++ if shortened then ellipsis else [])
      else
        let keep := oneIterKeep w width short.length
        if jsLtOne keep then some ['.']
        else
          getShortenedAux measure width fuel
            (short.take (jsTakeCount short.length keep)) true

/-- getShortened from the source, run with fuel text.length + 2; a
returned value is only ever claimed below when the loop actually exits
within that budget, and divergence claims quantify over all fuel. -/
def getShortened (measure : List Char → ℚ) (width : ℚ) (text : List Char) :
    Option (List Char) :=
  getShortenedAux measure width (text.length + 2) text false

/-- The loop diverges on the given input: no amount of fuel makes it
return, whatever the current shortened flag. -/
def getShortenedDiverges (measure : List Char → ℚ) (width : ℚ)
    (text : List Char) : Prop :=
  ∀ fuel b, getShortenedAux measure width fuel text b = none

/-- The measurement result: the source returns an object with height and
width fields read off the bounding box. -/
structure MeasurementResult where
  height : ℚ
  width : ℚ
deriving DecidableEq

/-- Association-list lookup modelling JavaScript object property read. -/
def lookupA {β : Type} : List (List Char × β) → List Char → Option β
  | [], _ => none
  | (k, v) :: t, a => if k = a then some v else lookupA t a

/-- Association-list update modelling JavaScript object property
assignment: overwrite the binding if the key is present, else append. -/
def updateAssoc {β : Type} :
    List (List Char × β) → List Char → β → List (List Char × β)
  | [], a, b => [(a, b)]
  | (k, v) :: t, a, b =>
      if k = a then (a, b) :: t else (k, v) :: updateAssoc t a b

/-- The nested measurement cache of a TextShortener instance: a cache
key maps to an inner table from text to MeasurementResult. -/
abbrev Cache := List (List Char × List (List Char × MeasurementResult))

/-- The cache key style + '|' + className built by
TextShortener.prototype.measureText. -/
def cacheKey (style className : List Char) : List Char :=
  style ++ '|' :: className

/-- TextShortener.prototype.measureText: look the text up in the nested
cache; on a miss call the underlying measurement primitive and store
the result.  Returns the result, the updated cache, and how many times
the underlying primitive was invoked during the call. -/
def tsMeasureText (prim : List Char → MeasurementResult) (cache : Cache)
    (text style className : List Char) : MeasurementResult × Cache × ℕ :=
  let key := cacheKey style className
  let classCache := (lookupA cache key).getD []
  match lookupA classCache text with
  | some r => (r, updateAssoc cache key classCache, 0)
  | none =>
      let r := prim text
      (r, updateAssoc cache key (updateAssoc classCache text r), 1)

/-- The DOM state the measurement helper touches: how many temporary
off-screen svg containers are currently attached to document.body. -/
structure DomState where
  attachedTempNodes : ℕ
deriving DecidableEq

/-- The bounding box returned by container.getBBox(). -/
structure BBox where
  width : ℚ
  height : ℚ
deriving DecidableEq

/-- measureText from the source with the DOM made explicit: empty text
returns zero without touching the DOM; otherwise a temporary svg
container is appended to document.body, getBBox is consulted (it may
throw), and on the successful path the container is removed again.
The source has no try/finally, so a getBBox exception propagates
before document.body.removeChild(container) runs. -/
def measureTextDom (text : List Char) (bboxResult : Except Unit BBox)
    (s : DomState) : Except Unit MeasurementResult × DomState :=
  if text.length = 0 then (Except.ok ⟨0, 0⟩, s)
  else
    let s1 : DomState := ⟨s.attachedTempNodes + 1⟩
    match bboxResult with
    | Except.error e => (Except.error e, s1)
    | Except.ok bbox =>
        (Except.ok ⟨bbox.height, bbox.width⟩, ⟨s1.attachedTempNodes - 1⟩)

/-- A labels.formatter value: either whatever the caller had put there,
or the shortening formatter closure installed by the wrapper. -/
inductive FormatterVal where
  | custom : ℕ → FormatterVal
  | shortening : FormatterVal
deriving DecidableEq

/-- A tickPositioner value: either whatever the caller had put there, or
the skipping positioner installed by the wrapper. -/
inductive PositionerVal where
  | custom : ℕ → PositionerVal
  | skipping : PositionerVal
deriving DecidableEq

/-- The labels sub-object of the axis options, restricted to the fields
the wrapper reads or writes. -/
structure LabelsOptions where
  rotation : Option ℚ
  maxStaggerLines : Option ℕ
  overflow : Option Bool
  formatter : Option FormatterVal
deriving DecidableEq

/-- The axis options fields the wrapper reads or writes. -/
structure AxisOptions where
  isX : Bool
  shortenLabels : Bool
  labels : Option LabelsOptions
  categories : List (List Char)
  tickPositioner : Option PositionerVal
deriving DecidableEq

/-- The non-breaking space U+00A0 written into category strings. -/
def nbsp : Char := '\u00A0'

/-- category.replace(/ /g, NBSP): every regular space becomes a
non-breaking space; every other character is untouched. -/
def replaceSpaces (category : List Char) : List Char :=
  category.map fun ch => if ch = ' ' then nbsp else ch

/-- The wrapped Axis.init from the source, as a transformation of the
options object: when the axis is not the x axis or shortenLabels is not
set, the options reach the original init unchanged; otherwise
options.labels is defaulted to an empty object, maxStaggerLines,
overflow and the formatter are forced, the categories are
space-normalized, and after the original init runs a tick positioner
is installed on the options. -/
def axisInit (opts : AxisOptions) : AxisOptions :=
  if !opts.isX || !opts.shortenLabels then opts
  else
    let labels0 := opts.labels.getD ⟨none, none, none, none⟩
    { opts with
        labels := some { labels0 with
          maxStaggerLines := some 1,
          overflow := some false,
          formatter := some .shortening },
        categories := opts.categories.map replaceSpaces,
        tickPositioner := some .skipping }

/-- The tick positioner installed by the wrapper, with
ticks = Math.floor(this.chart.plotWidth / perTickWidth) and
skip = Math.ceil(this.categories.length / ticks): the indices produced
by categories.map((category, index) => index), filtered to those
divisible by skip.  The model assumes the divisions are between finite
numbers, which the hypotheses of the theorems below guarantee. -/
def tickPositioner (numCategories : ℕ) (plotWidth perTickWidth : ℚ) :
    List ℕ :=
  let ticks : ℤ := ⌊plotWidth / perTickWidth⌋
  let skip : ℤ := ⌈(numCategories : ℚ) / (ticks : ℚ)⌉
  (List.range numCategories).filter fun idx => (idx : ℤ) % skip == 0


/-- A length-indexed measurement table (monotone and non-negative in the
string length) used to exercise the shortening loop: strings up to six
characters measure at most 5, strings of 7 to 19 characters measure 18,
longer strings measure 20. -/
def stepMeasure (n : ℕ) : ℚ :=
  if n ≤ 6 then min (n : ℚ) 5 else if n ≤ 19 then 18 else 20

/-- A twenty-character text. -/
def twentyAs : List Char := List.replicate 20 'a'

/-- A measurement function that is negative exactly on the empty string,
used to show the output-shape claim needs non-negative measures. -/
def negOnEmpty (s : List Char) : ℚ := if s.length = 0 then -1 else 0

/-! ## Step lemmas for the shortening loop -/

lemma getShortenedAux_succ (measure : List Char → ℚ) (width : ℚ) (fuel : ℕ)
    (short : List Char) (b : Bool) :
    getShortenedAux measure width (fuel + 1) short b =
      if measure short < width then some (short ++ if b then ellipsis else [])
      else if jsLtOne (oneIterKeep (measure short) width short.length) then
        some ['.']
      else getShortenedAux measure width fuel
        (short.take (jsTakeCount short.length
          (oneIterKeep (measure short) width short.length))) true := rfl

lemma getShortenedAux_break {measure : List Char → ℚ} {width : ℚ}
    {short : List Char} (fuel : ℕ) (b : Bool) (h : measure short < width) :
    getShortenedAux measure width (fuel + 1) short b =
      some (short ++ if b then ellipsis else []) := by
  rw [getShortenedAux_succ, if_pos h]

lemma getShortenedAux_dot {measure : List Char → ℚ} {width : ℚ}
    {short : List Char} (fuel : ℕ) (b : Bool) (h1 : ¬ measure short < width)
    (h2 : jsLtOne (oneIterKeep (measure short) width short.length) = true) :
    getShortenedAux measure width (fuel + 1) short b = some ['.'] := by
  rw [getShortenedAux_succ, if_neg h1, if_pos h2]

lemma getShortenedAux_cont {measure : List Char → ℚ} {width : ℚ}
    {short : List Char} (fuel : ℕ) (b : Bool) (h1 : ¬ measure short < width)
    (h2 : jsLtOne (oneIterKeep (measure short) width short.length) = false) :
    getShortenedAux measure width (fuel + 1) short b =
      getShortenedAux measure width fuel
        (short.take (jsTakeCount short.length
          (oneIterKeep (measure short) width short.length))) true := by
  rw [getShortenedAux_succ, if_neg h1]
  simp [h2]

/-! ## Evaluating oneIterKeep in the reachable configurations -/

lemma oneIterKeep_pos (w width : ℚ) (len : ℕ) (hl : len ≠ 0) (hw : 0 < w) :
    oneIterKeep w width len =
      .fin (max 0 ((len : ℚ) - ((⌈(w - width) * len / w⌉ : ℤ) : ℚ) - 3)) := by
  have hlq : ((len : ℚ)) ≠ 0 := Nat.cast_ne_zero.2 hl
  have hq : w / (len : ℚ) ≠ 0 := div_ne_zero hw.ne' hlq
  unfold oneIterKeep
  rw [show jsDiv w (.fin (len : ℚ)) = .fin (w / len) by simp [jsDiv, hlq]]
  rw [show jsDiv (w - width) (.fin (w / (len : ℚ))) =
        .fin ((w - width) / (w / len)) by simp [jsDiv, hq]]
  rw [div_div_eq_mul_div]
  rfl

lemma oneIterKeep_len_zero_pos (w width : ℚ) (hw : 0 < w) :
    oneIterKeep w width 0 = .fin 0 := by
  unfold oneIterKeep
  rw [show jsDiv w (.fin ((0 : ℕ) : ℚ)) = .pinf by simp [jsDiv, hw]]
  show keepCharsOf 0 (jsCeil (.fin 0)) = .fin 0
  rw [show jsCeil (.fin 0) = .fin 0 by simp [jsCeil]]
  show JSNum.fin (max 0 (((0 : ℕ) : ℚ) - 0 - 3)) = .fin 0
  norm_num

lemma oneIterKeep_zero_zero (len : ℕ) : oneIterKeep 0 0 len = .nan := by
  unfold oneIterKeep
  rcases Nat.eq_zero_or_pos len with hl | hl
  · subst hl
    rw [show jsDiv 0 (.fin ((0 : ℕ) : ℚ)) = .nan by simp [jsDiv]]
    rfl
  · have hlq : ((len : ℚ)) ≠ 0 := Nat.cast_ne_zero.2 hl.ne'
    rw [show jsDiv 0 (.fin (len : ℚ)) = .fin 0 by simp [jsDiv, hlq]]
    rw [show jsDiv (0 - 0 : ℚ) (.fin 0) = .nan by simp [jsDiv]]
    rfl

/-! ## C1: behaviour at maxWidth equal to the measured width -/

/-- C1 counterexample: with the per-character measure s.length, the text
"abcd" measures exactly 4, yet getShortened at maxWidth = 4 does not
return it unchanged: the loop's exit test w < width is strict, so the
text is truncated to "a...".  This refutes the claim for
maxWidth = measured width. -/
theorem getShortened_at_exact_width_shortens :
    getShortened (fun s => (s.length : ℚ)) 4 ['a', 'b', 'c', 'd'] =
      some ['a', '.', '.', '.'] ∧
    (['a', '.', '.', '.'] : List Char) ≠ ['a', 'b', 'c', 'd'] := by
  constructor
  · have h0 : getShortened (fun s => (s.length : ℚ)) 4 ['a', 'b', 'c', 'd'] =
        getShortenedAux (fun s => (s.length : ℚ)) 4 (5 + 1)
          ['a', 'b', 'c', 'd'] false := rfl
    rw [h0]
    have hkeep : oneIterKeep ((fun (s : List Char) => (s.length : ℚ))
          ['a', 'b', 'c', 'd']) 4 (['a', 'b', 'c', 'd'] : List Char).length =
        .fin 1 := by
      rw [show (fun (s : List Char) => (s.length : ℚ)) ['a', 'b', 'c', 'd'] =
            (4 : ℚ) by norm_num]
      rw [show (['a', 'b', 'c', 'd'] : List Char).length = 4 from rfl]
      rw [oneIterKeep_pos 4 4 4 (by norm_num) (by norm_num)]
      norm_num
    rw [getShortenedAux_cont 5 false (by norm_num) (by rw [hkeep]; norm_num [jsLtOne])]
    rw [hkeep]
    rw [show (['a', 'b', 'c', 'd'] : List Char).take
          (jsTakeCount (['a', 'b', 'c', 'd'] : List Char).length (.fin 1)) =
        ['a'] by norm_num [jsTakeCount]]
    rw [show (5 : ℕ) = 4 + 1 from rfl]
    rw [getShortenedAux_break 4 true (by norm_num)]
    rfl
  · simp

/-- C1 (amended): for every text and measurement function, if the
measured width of the text is strictly below maxWidth, getShortened
returns the text unchanged, with no ellipsis appended.  (The original
claim allowed maxWidth equal to the measured width, which the strict
exit test of the loop refutes.) -/
theorem getShortened_fits_unchanged (measure : List Char → ℚ) (width : ℚ)
    (text : List Char) (hne : text ≠ []) (h : measure text < width) :
    getShortened measure width text = some text := by
  unfold getShortened
  show getShortenedAux measure width (text.length + 1 + 1) text false = some text
  rw [getShortenedAux_break (text.length + 1) false h]
  simp

/-- Witness for the amended C1 at a concrete input: "ab" measures 2
under the per-character measure and fits maxWidth 3 unchanged. -/
theorem getShortened_fits_unchanged_witness :
    getShortened (fun s => (s.length : ℚ)) 3 ['a', 'b'] = some ['a', 'b'] :=
  getShortened_fits_unchanged (fun s => (s.length : ℚ)) 3 ['a', 'b']
    (by simp) (by norm_num)

/-! ## C2: small or non-positive maxWidth -/

/-- The loop body is a no-op on the empty string when it measures 0 and
the available width is 0: JavaScript computes oneLetterApprox
= 0/0 = NaN, keepChars = NaN, NaN < 1 is false, and substring(0, NaN)
returns the empty string again, forever. -/
lemma getShortenedAux_none_empty (measure : List Char → ℚ)
    (h0 : measure [] = 0) :
    ∀ fuel b, getShortenedAux measure 0 fuel [] b = none := by
  intro fuel
  induction fuel with
  | zero => intro b; rfl
  | succ n ih =>
      intro b
      have hkeep : oneIterKeep (measure []) 0 ([] : List Char).length = .nan := by
        rw [h0]
        exact oneIterKeep_zero_zero 0
      rw [getShortenedAux_cont n b (by rw [h0]; exact lt_irrefl 0) (by rw [hkeep]; rfl)]
      rw [hkeep]
      exact ih true


/-- C2 counterexample: on the empty text (which the real measureText
maps to width 0, as the per-character measure used here does) and
maxWidth = 0, getShortened does not terminate at all, let alone return
".": the loop hits 0/0 = NaN and substring(0, NaN) keeps the candidate
empty forever. -/
theorem getShortened_empty_zero_width_diverges :
    getShortenedDiverges (fun s => (s.length : ℚ)) 0 [] := fun fuel b =>
  getShortenedAux_none_empty (fun s => (s.length : ℚ)) (by simp) fuel b

/-- C2 (amended): for every text whose measured width w is positive and
every maxWidth that does not exceed w and is smaller than four average
character widths (one character plus the three-character ellipsis
budget), getShortened terminates immediately with exactly ".".  In
particular this holds for every zero or negative maxWidth.  (The
original claim also covered the empty text at zero or negative
maxWidth, where the measured width is 0 and the loop diverges.) -/
theorem getShortened_small_width_dot (measure : List Char → ℚ) (width : ℚ)
    (text : List Char) (h1 : 0 < measure text) (h2 : ¬ measure text < width)
    (h3 : width * text.length < 4 * measure text) :
    getShortened measure width text = some ['.'] := by
  unfold getShortened
  show getShortenedAux measure width (text.length + 1 + 1) text false = some ['.']
  apply getShortenedAux_dot (text.length + 1) false h2
  rcases Nat.eq_zero_or_pos text.length with hl | hl
  · rw [hl, oneIterKeep_len_zero_pos (measure text) width h1]
    norm_num [jsLtOne]
  · rw [oneIterKeep_pos (measure text) width text.length hl.ne' h1]
    have hcq : ((text.length : ℤ) - 4 : ℤ) <
        ⌈(measure text - width) * text.length / measure text⌉ := by
      rw [Int.lt_ceil]
      rw [lt_div_iff₀ h1]
      push_cast
      nlinarith [h3]
    have hcq2 : ((text.length : ℚ)) - 4 <
        ((⌈(measure text - width) * text.length / measure text⌉ : ℤ) : ℚ) := by
      exact_mod_cast hcq
    simp only [jsLtOne, decide_eq_true_eq]
    rw [max_lt_iff]
    constructor
    · norm_num
    · linarith

/-- Witness for the amended C2 at a concrete input: "ab" measures 2
under the per-character measure; at maxWidth 0 the loop returns ".". -/
theorem getShortened_small_width_dot_witness :
    getShortened (fun s => (s.length : ℚ)) 0 ['a', 'b'] = some ['.'] :=
  getShortened_small_width_dot (fun s => (s.length : ℚ)) 0 ['a', 'b']
    (by norm_num) (by norm_num) (by norm_num)


/-! ## C3: the temporary measurement node and getBBox exceptions -/

/-- C3 evidence: measureText on non-empty text appends the temporary svg
container to document.body and only removes it after getBBox returns.
When getBBox throws, the exception propagates and the container stays
attached (count 1); on the successful path it is detached (count 0);
empty text never touches the DOM.  The first conjunct exhibits the leak
the claim says cannot happen. -/
theorem measureText_bbox_error_leaks_node :
    (measureTextDom ['a'] (Except.error ()) ⟨0⟩).2.attachedTempNodes = 1 ∧
    (measureTextDom ['a'] (Except.ok ⟨10, 5⟩) ⟨0⟩).2.attachedTempNodes = 0 ∧
    measureTextDom [] (Except.error ()) ⟨0⟩ = (Except.ok ⟨0, 0⟩, ⟨0⟩) :=
  ⟨rfl, rfl, rfl⟩

/-! ## C4: injectivity of the cache key style + bar + className -/

/-- C4 counterexample: the pairs ("a|b", "c") and ("a", "b|c") are
distinct but build the same cache key "a|b|c"; consequently a
measurement stored under the first pair is returned — with no call to
the underlying primitive — to a call using the second pair. -/
theorem cacheKey_collision :
    cacheKey ['a', '|', 'b'] ['c'] = cacheKey ['a'] ['b', '|', 'c'] ∧
    ((['a', '|', 'b'], ['c']) : List Char × List Char) ≠
      (['a'], ['b', '|', 'c']) ∧
    (tsMeasureText (fun _ => ⟨1, 1⟩)
        (tsMeasureText (fun _ => ⟨1, 1⟩) [] ['x'] ['a', '|', 'b'] ['c']).2.1
        ['x'] ['a'] ['b', '|', 'c']).2.2 = 0 :=
  ⟨rfl, by decide, rfl⟩

/-- Helper for the amended C4: splitting at a pivot character absent
from both left parts is injective. -/
lemma append_pivot_inj (p : Char) (s1 : List Char) :
    ∀ s2 c1 c2 : List Char, p ∉ s1 → p ∉ s2 →
      s1 ++ p :: c1 = s2 ++ p :: c2 → s1 = s2 ∧ c1 = c2 := by
  induction s1 with
  | nil =>
      intro s2 c1 c2 _ h2 h
      cases s2 with
      | nil =>
          simp only [List.nil_append] at h
          exact ⟨rfl, by injection h⟩
      | cons y t2 =>
          simp only [List.nil_append, List.cons_append, List.cons.injEq] at h
          rcases h with ⟨hy, _⟩
          rw [hy] at h2
          exact absurd (List.mem_cons_self _ _) h2
  | cons x t1 ih =>
      intro s2 c1 c2 h1 h2 h
      cases s2 with
      | nil =>
          simp only [List.nil_append, List.cons_append, List.cons.injEq] at h
          rcases h with ⟨hx, _⟩
          rw [← hx] at h1
          exact absurd (List.mem_cons_self _ _) h1
      | cons y t2 =>
          simp only [List.cons_append, List.cons.injEq] at h
          rcases h with ⟨hxy, ht⟩
          have h1' : p ∉ t1 := fun hm => h1 (List.mem_cons_of_mem _ hm)
          have h2' : p ∉ t2 := fun hm => h2 (List.mem_cons_of_mem _ hm)
          rcases ih t2 c1 c2 h1' h2' ht with ⟨hs, hc⟩
          exact ⟨by rw [hxy, hs], hc⟩

/-- C4 (amended): the key construction style + bar + className is
injective on pairs whose style strings do not themselves contain the
separator character.  (The styles the plugin builds,
font-size:...;font-family:..., never contain a bar; the unamended claim
fails on styles that do.) -/
theorem cacheKey_injective_no_bar (s1 c1 s2 c2 : List Char)
    (h1 : '|' ∉ s1) (h2 : '|' ∉ s2)
    (h : cacheKey s1 c1 = cacheKey s2 c2) : s1 = s2 ∧ c1 = c2 :=
  append_pivot_inj '|' s1 s2 c1 c2 h1 h2 h

/-- Witness for the amended C4 at concrete bar-free styles. -/
theorem cacheKey_injective_no_bar_witness :
    (['a'] : List Char) = ['a'] ∧ (['b'] : List Char) = ['b'] :=
  cacheKey_injective_no_bar ['a'] ['b'] ['a'] ['b'] (by decide) (by decide) rfl

/-! ## C5: the measurement cache memoizes -/

lemma lookupA_updateAssoc {β : Type} (l : List (List Char × β))
    (a : List Char) (b : β) : lookupA (updateAssoc l a b) a = some b := by
  induction l with
  | nil => simp [updateAssoc, lookupA]
  | cons kv t ih =>
      obtain ⟨k, v⟩ := kv
      by_cases hk : k = a
      · simp [updateAssoc, hk, lookupA]
      · simp [updateAssoc, hk, lookupA, ih]

/-- C5: calling the TextShortener measureText twice with the same
(text, style, className) returns identical results, and the second
call invokes the underlying measurement primitive zero times: it is
answered from the cache written by the first call. -/
theorem tsMeasureText_memoizes (prim : List Char → MeasurementResult)
    (cache : Cache) (text style className : List Char) :
    (tsMeasureText prim
        (tsMeasureText prim cache text style className).2.1
        text style className).1 =
      (tsMeasureText prim cache text style className).1 ∧
    (tsMeasureText prim
        (tsMeasureText prim cache text style className).2.1
        text style className).2.2 = 0 := by
  unfold tsMeasureText
  rcases hl : lookupA ((lookupA cache (cacheKey style className)).getD [])
      text with _ | r
  · simp only [hl, lookupA_updateAssoc, Option.getD_some]
    exact ⟨trivial, trivial⟩
  · simp only [hl, lookupA_updateAssoc, Option.getD_some]
    simp [hl]


/-! ## C6: the installed tick positioner -/

/-- C6: with at least one category and at least one tick fitting the
plot, the tick positioner returns exactly the ascending category
indices divisible by skip = ceil(numberOfCategories / ticksThatFit),
where ticksThatFit = floor(plotWidth / perTickWidth); the result always
contains index 0, contains no out-of-range index, is strictly
ascending, and at 10 categories with 3 ticks fitting it is [0, 4, 8]. -/
theorem tickPositioner_spec (n : ℕ) (pW ptW : ℚ)
    (hn : 1 ≤ n) (ht : 1 ≤ ⌊pW / ptW⌋) :
    tickPositioner n pW ptW =
      (List.range n).filter
        (fun (i : ℕ) => decide ((⌈(n : ℚ) / ((⌊pW / ptW⌋ : ℤ) : ℚ)⌉ : ℤ) ∣ (i : ℤ))) ∧
    0 ∈ tickPositioner n pW ptW ∧
    (∀ i ∈ tickPositioner n pW ptW, i < n) ∧
    (tickPositioner n pW ptW).Pairwise (· < ·) ∧
    tickPositioner 10 300 80 = [0, 4, 8] := by
  have hfilter : tickPositioner n pW ptW =
      (List.range n).filter
        (fun (i : ℕ) => decide ((⌈(n : ℚ) / ((⌊pW / ptW⌋ : ℤ) : ℚ)⌉ : ℤ) ∣ (i : ℤ))) := by
    unfold tickPositioner
    apply List.filter_congr
    intro i _
    rw [Bool.eq_iff_iff]
    simp only [beq_iff_eq, decide_eq_true_eq]
    exact Int.dvd_iff_emod_eq_zero.symm
  refine ⟨hfilter, ?_, ?_, ?_, ?_⟩
  · rw [hfilter]
    rw [List.mem_filter]
    constructor
    · exact List.mem_range.2 hn
    · simp
  · intro i hi
    rw [hfilter] at hi
    exact List.mem_range.1 (List.mem_filter.1 hi).1
  · rw [hfilter]
    exact (List.pairwise_lt_range n).filter _
  · have h1 : (⌊(300 : ℚ) / 80⌋ : ℤ) = 3 := by norm_num
    have h2 : (⌈((10 : ℕ) : ℚ) / ((3 : ℤ) : ℚ)⌉ : ℤ) = 4 := by
      rw [Int.ceil_eq_iff]
      push_cast
      norm_num
    unfold tickPositioner
    dsimp only
    rw [h1, h2]
    decide

/-- Witness for C6 at the concrete instance of the claim: n = 10 and
floor(300 / 80) = 3 ticks fitting. -/
theorem tickPositioner_spec_witness :
    0 ∈ tickPositioner 10 300 80 ∧ tickPositioner 10 300 80 = [0, 4, 8] := by
  have h := tickPositioner_spec 10 300 80 (by norm_num) (by norm_num)
  exact ⟨h.2.1, h.2.2.2.2⟩

/-! ## C8: the guard leaves the options untouched -/

/-- C8: when the axis is not the x axis or shortenLabels is not set, the
wrapper hands the original init the very same options object: formatter,
overflow, maxStaggerLines, categories and tickPositioner all unchanged,
and no shortening behaviour installed. -/
theorem axisInit_guard_unchanged (opts : AxisOptions)
    (h : opts.isX = false ∨ opts.shortenLabels = false) :
    axisInit opts = opts ∧
    (axisInit opts).labels.map LabelsOptions.formatter =
      opts.labels.map LabelsOptions.formatter ∧
    (axisInit opts).labels.map LabelsOptions.overflow =
      opts.labels.map LabelsOptions.overflow ∧
    (axisInit opts).labels.map LabelsOptions.maxStaggerLines =
      opts.labels.map LabelsOptions.maxStaggerLines ∧
    (axisInit opts).categories = opts.categories ∧
    (axisInit opts).tickPositioner = opts.tickPositioner := by
  have he : axisInit opts = opts := by
    unfold axisInit
    rcases h with h | h <;> simp [h]
  exact ⟨he, by rw [he], by rw [he], by rw [he], by rw [he], by rw [he]⟩

/-- Witness for C8 on a concrete non-x axis configuration. -/
theorem axisInit_guard_unchanged_witness :
    axisInit ⟨false, true, none, [['a', ' ', 'b']], none⟩ =
      ⟨false, true, none, [['a', ' ', 'b']], none⟩ :=
  (axisInit_guard_unchanged ⟨false, true, none, [['a', ' ', 'b']], none⟩
    (Or.inl rfl)).1

/-! ## C9: category normalization under the wrapper -/

/-- C9: when the axis is the x axis and shortenLabels is set,
initialization maps every category through the space normalization;
that normalization preserves length, sends every space character to the
non-breaking space and leaves every other character unchanged; and
"New York" becomes "New" + NBSP + "York". -/
theorem axisInit_normalizes_categories (opts : AxisOptions)
    (hx : opts.isX = true) (hs : opts.shortenLabels = true) :
    (axisInit opts).categories = opts.categories.map replaceSpaces ∧
    (∀ s : List Char, (replaceSpaces s).length = s.length) ∧
    (∀ (s : List Char) (k : ℕ) (h1 : k < (replaceSpaces s).length)
      (h2 : k < s.length),
      (replaceSpaces s)[k] = if s[k] = ' ' then nbsp else s[k]) ∧
    replaceSpaces ['N', 'e', 'w', ' ', 'Y', 'o', 'r', 'k'] =
      ['N', 'e', 'w', nbsp, 'Y', 'o', 'r', 'k'] := by
  refine ⟨?_, ?_, ?_, rfl⟩
  · unfold axisInit
    rw [hx, hs]
    simp
  · intro s
    exact s.length_map _
  · intro s k h1 h2
    exact s.getElem_map _

/-- Witness for C9 on a concrete x-axis configuration carrying the
category "New York". -/
theorem axisInit_normalizes_categories_witness :
    (axisInit ⟨true, true, none,
        [['N', 'e', 'w', ' ', 'Y', 'o', 'r', 'k']], none⟩).categories =
      [['N', 'e', 'w', ' ', 'Y', 'o', 'r', 'k']].map replaceSpaces :=
  (axisInit_normalizes_categories ⟨true, true, none,
      [['N', 'e', 'w', ' ', 'Y', 'o', 'r', 'k']], none⟩ rfl rfl).1


/-! ## C7: monotonicity of the output length in maxWidth -/

/-- C7 counterexample: under the non-negative, length-monotone measure
stepMeasure, a twenty-character text shortened at maxWidth 9 keeps six
characters plus the ellipsis (nine characters), while at the larger
maxWidth 10 the loop first keeps seven characters, re-measures them at
18 pixels, collapses to keepChars 0 and returns "." (one character).
So the output length is not monotone in maxWidth. -/
theorem getShortened_not_monotone :
    (9 : ℚ) ≤ 10 ∧
    getShortened (fun s => stepMeasure s.length) 9 twentyAs =
      some (List.replicate 6 'a' ++ ellipsis) ∧
    getShortened (fun s => stepMeasure s.length) 10 twentyAs = some ['.'] ∧
    ¬ (List.replicate 6 'a' ++ ellipsis).length ≤ (['.'] : List Char).length := by
  have hlen : twentyAs.length = 20 := rfl
  have hm20 : stepMeasure twentyAs.length = 20 := by
    rw [hlen]; norm_num [stepMeasure]
  refine ⟨by norm_num, ?_, ?_, by decide⟩
  · have h0 : getShortened (fun s => stepMeasure s.length) 9 twentyAs =
        getShortenedAux (fun s => stepMeasure s.length) 9 (21 + 1)
          twentyAs false := rfl
    rw [h0]
    have hk1 : oneIterKeep (stepMeasure twentyAs.length) 9 twentyAs.length =
        .fin 6 := by
      rw [hm20, hlen, oneIterKeep_pos 20 9 20 (by norm_num) (by norm_num)]
      push_cast
      rw [show ((20 : ℚ) - 9) * 20 / 20 = ((11 : ℤ) : ℚ) by norm_num]
      rw [Int.ceil_intCast]
      norm_num
    rw [getShortenedAux_cont 21 false (by rw [hm20]; norm_num)
      (by rw [hk1]; norm_num [jsLtOne])]
    rw [hk1, hlen]
    rw [show jsTakeCount 20 (.fin 6) = 6 by
      norm_num [jsTakeCount]
      rfl]
    rw [show twentyAs.take 6 = List.replicate 6 'a' by
      simp [twentyAs, List.take_replicate]]
    rw [show (21 : ℕ) = 20 + 1 from rfl]
    rw [getShortenedAux_break 20 true (by norm_num [stepMeasure])]
    rfl
  · have h0 : getShortened (fun s => stepMeasure s.length) 10 twentyAs =
        getShortenedAux (fun s => stepMeasure s.length) 10 (21 + 1)
          twentyAs false := rfl
    rw [h0]
    have hk1 : oneIterKeep (stepMeasure twentyAs.length) 10 twentyAs.length =
        .fin 7 := by
      rw [hm20, hlen, oneIterKeep_pos 20 10 20 (by norm_num) (by norm_num)]
      push_cast
      rw [show ((20 : ℚ) - 10) * 20 / 20 = ((10 : ℤ) : ℚ) by norm_num]
      rw [Int.ceil_intCast]
      norm_num
    rw [getShortenedAux_cont 21 false (by rw [hm20]; norm_num)
      (by rw [hk1]; norm_num [jsLtOne])]
    rw [hk1, hlen]
    rw [show jsTakeCount 20 (.fin 7) = 7 by
      norm_num [jsTakeCount]
      rfl]
    rw [show twentyAs.take 7 = List.replicate 7 'a' by
      simp [twentyAs, List.take_replicate]]
    have hm7 : stepMeasure (List.replicate 7 'a').length = 18 := by
      norm_num [stepMeasure]
    have hk2 : oneIterKeep (stepMeasure (List.replicate 7 'a').length) 10
        (List.replicate 7 'a').length = .fin 0 := by
      rw [hm7, show (List.replicate 7 'a').length = 7 from rfl,
        oneIterKeep_pos 18 10 7 (by norm_num) (by norm_num)]
      push_cast
      rw [show ((18 : ℚ) - 10) * 7 / 18 = 28 / 9 by norm_num]
      rw [show (⌈(28 / 9 : ℚ)⌉ : ℤ) = 4 by
        rw [Int.ceil_eq_iff]
        constructor <;> norm_num]
      norm_num
    rw [show (21 : ℕ) = 20 + 1 from rfl]
    rw [getShortenedAux_dot 20 true (by rw [hm7]; norm_num)
      (by rw [hk2]; norm_num [jsLtOne])]


set_option maxHeartbeats 1600000 in
/-- Closed form of getShortened for a measure proportional to the string
length (constant per-character width c): a strictly fitting text is
returned unchanged; otherwise with F = floor(maxWidth / c) the loop
returns "." when F <= 3 and otherwise keeps F - 3 characters plus the
ellipsis, which fits after exactly one further measurement. -/
lemma getShortened_linear (c width : ℚ) (text : List Char)
    (hc : 0 < c) (hne : text ≠ []) :
    getShortened (fun s => c * s.length) width text =
      if c * text.length < width then some text
      else if ⌊width / c⌋ ≤ 3 then some ['.']
      else some (text.take (⌊width / c⌋ - 3).toNat ++ ellipsis) := by
  have hL : 0 < text.length := List.length_pos.2 hne
  have hLq : (0 : ℚ) < (text.length : ℚ) := by exact_mod_cast hL
  by_cases hfit : c * (text.length : ℚ) < width
  · rw [if_pos hfit]
    unfold getShortened
    show getShortenedAux (fun s => c * s.length) width (text.length + 1 + 1)
      text false = some text
    rw [getShortenedAux_break (text.length + 1) false hfit]
    simp
  · rw [if_neg hfit]
    have hw : (0 : ℚ) < c * text.length := by positivity
    have hceil : (⌈(c * text.length - width) * text.length /
        (c * text.length)⌉ : ℤ) = (text.length : ℤ) - ⌊width / c⌋ := by
      have he : (c * text.length - width) * text.length / (c * text.length) =
          -(width / c) + ((text.length : ℤ) : ℚ) := by
        field_simp
        ring
      rw [he, Int.ceil_add_int, Int.ceil_neg]
      ring
    have hkeep : oneIterKeep (c * (text.length : ℚ)) width text.length =
        .fin (max 0 (((⌊width / c⌋ : ℤ) : ℚ) - 3)) := by
      rw [oneIterKeep_pos (c * (text.length : ℚ)) width text.length hL.ne' hw,
        hceil]
      have harith : (text.length : ℚ) -
          ((((text.length : ℤ) - ⌊width / c⌋ : ℤ)) : ℚ) - 3 =
          ((⌊width / c⌋ : ℤ) : ℚ) - 3 := by
        push_cast
        ring
      rw [harith]
    by_cases hF : ⌊width / c⌋ ≤ 3
    · rw [if_pos hF]
      unfold getShortened
      show getShortenedAux (fun s => c * s.length) width (text.length + 1 + 1)
        text false = some ['.']
      apply getShortenedAux_dot (text.length + 1) false hfit
      rw [hkeep]
      simp only [jsLtOne, decide_eq_true_eq]
      rw [max_lt_iff]
      refine ⟨by norm_num, ?_⟩
      have h3 : (((⌊width / c⌋ : ℤ) : ℚ)) ≤ 3 := by exact_mod_cast hF
      linarith
    · rw [if_neg hF]
      have hF4 : 4 ≤ ⌊width / c⌋ := by omega
      have hFL : ⌊width / c⌋ ≤ (text.length : ℤ) := by
        have hwle : width / c ≤ (text.length : ℚ) := by
          rw [div_le_iff₀ hc]
          have hx := not_lt.1 hfit
          linarith
        calc ⌊width / c⌋ ≤ ⌊(text.length : ℚ)⌋ := Int.floor_le_floor hwle
          _ = text.length := Int.floor_natCast _
      have hF4q : ((4 : ℤ) : ℚ) ≤ ((⌊width / c⌋ : ℤ) : ℚ) := by
        exact_mod_cast hF4
      unfold getShortened
      show getShortenedAux (fun s => c * s.length) width (text.length + 1 + 1)
        text false =
        some (text.take (⌊width / c⌋ - 3).toNat ++ ellipsis)
      have hlt1 : jsLtOne (oneIterKeep (c * (text.length : ℚ)) width
          text.length) = false := by
        rw [hkeep]
        simp only [jsLtOne, decide_eq_false_iff_not, not_lt]
        have h1q : (1 : ℚ) ≤ ((⌊width / c⌋ : ℤ) : ℚ) - 3 := by
          push_cast at hF4q ⊢
          linarith
        exact le_max_of_le_right h1q
      rw [@getShortenedAux_cont (fun s => c * s.length) width text
        (text.length + 1) false hfit hlt1]
      rw [hkeep]
      have htake : jsTakeCount text.length
          (.fin (max 0 (((⌊width / c⌋ : ℤ) : ℚ) - 3))) =
          (⌊width / c⌋ - 3).toNat := by
        have hm : max 0 (((⌊width / c⌋ : ℤ) : ℚ) - 3) =
            (((⌊width / c⌋ - 3 : ℤ)) : ℚ) := by
          rw [max_eq_right]
          · push_cast
            ring
          · push_cast at hF4q ⊢
            linarith
        rw [hm]
        simp only [jsTakeCount]
        rw [Int.floor_intCast]
        rw [max_eq_right (by omega : (0 : ℤ) ≤ ⌊width / c⌋ - 3)]
        rw [min_eq_right (by omega : (⌊width / c⌋ - 3).toNat ≤ text.length)]
      rw [htake]
      have hbreak : c * (((text.take (⌊width / c⌋ - 3).toNat).length : ℕ) : ℚ)
          < width := by
        have hlen2 : (text.take (⌊width / c⌋ - 3).toNat).length =
            (⌊width / c⌋ - 3).toNat := by
          rw [List.length_take]
          omega
        rw [hlen2]
        have hcast : (((⌊width / c⌋ - 3).toNat : ℕ) : ℚ) =
            ((⌊width / c⌋ : ℤ) : ℚ) - 3 := by
          have h0 : (((⌊width / c⌋ - 3).toNat : ℕ) : ℤ) = ⌊width / c⌋ - 3 :=
            Int.toNat_of_nonneg (by omega)
          exact_mod_cast h0
        rw [hcast]
        have hfl : ((⌊width / c⌋ : ℤ) : ℚ) ≤ width / c := Int.floor_le _
        have hmul : c * (((⌊width / c⌋ : ℤ) : ℚ) - 3) ≤
            c * (width / c - 3) := by
          apply mul_le_mul_of_nonneg_left _ hc.le
          linarith
        have hcw : c * (width / c - 3) = width - 3 * c := by
          field_simp
          ring
        linarith
      rw [@getShortenedAux_break (fun s => c * s.length) width
        (text.take (⌊width / c⌋ - 3).toNat) text.length true hbreak]
      rfl


/-- C7 (amended): for a measurement function proportional to the string
length (a constant per-character width, the regime the spec's
monotonicity property implicitly assumes) and a non-empty text, the
length of getShortened's output is monotone in maxWidth.  (For general
measurement functions — even non-negative, length-monotone ones — the
counterexample above refutes the original claim.) -/
theorem getShortened_length_mono_linear (c w1 w2 : ℚ) (text r1 r2 : List Char)
    (hc : 0 < c) (hne : text ≠ []) (hw : w1 ≤ w2)
    (h1 : getShortened (fun s => c * s.length) w1 text = some r1)
    (h2 : getShortened (fun s => c * s.length) w2 text = some r2) :
    r1.length ≤ r2.length := by
  rw [getShortened_linear c w1 text hc hne] at h1
  rw [getShortened_linear c w2 text hc hne] at h2
  have hL : 0 < text.length := List.length_pos.2 hne
  have hF12 : ⌊w1 / c⌋ ≤ ⌊w2 / c⌋ := Int.floor_le_floor (by gcongr)
  have hmidlen : ∀ w : ℚ, ¬ c * text.length < w → 3 < ⌊w / c⌋ →
      (text.take (⌊w / c⌋ - 3).toNat ++ ellipsis).length =
        (⌊w / c⌋ - 3).toNat + 3 ∧
      (⌊w / c⌋ - 3).toNat + 3 ≤ text.length := by
    intro w hnf hF
    have hFL : ⌊w / c⌋ ≤ (text.length : ℤ) := by
      have hwle : w / c ≤ (text.length : ℚ) := by
        rw [div_le_iff₀ hc]
        have hx := not_lt.1 hnf
        linarith
      calc ⌊w / c⌋ ≤ ⌊(text.length : ℚ)⌋ := Int.floor_le_floor hwle
        _ = text.length := Int.floor_natCast _
    constructor
    · rw [List.length_append, List.length_take]
      rw [min_eq_left (by omega : (⌊w / c⌋ - 3).toNat ≤ text.length)]
      rfl
    · omega
  by_cases hc1 : c * (text.length : ℚ) < w1
  · have hc3 : c * (text.length : ℚ) < w2 := lt_of_lt_of_le hc1 hw
    rw [if_pos hc1] at h1
    rw [if_pos hc3] at h2
    obtain rfl := Option.some.inj h1
    obtain rfl := Option.some.inj h2
    exact le_refl _
  · rw [if_neg hc1] at h1
    by_cases hc2 : ⌊w1 / c⌋ ≤ 3
    · rw [if_pos hc2] at h1
      obtain rfl := Option.some.inj h1
      by_cases hc3 : c * (text.length : ℚ) < w2
      · rw [if_pos hc3] at h2
        obtain rfl := Option.some.inj h2
        exact hL
      · rw [if_neg hc3] at h2
        by_cases hc4 : ⌊w2 / c⌋ ≤ 3
        · rw [if_pos hc4] at h2
          obtain rfl := Option.some.inj h2
          exact le_refl _
        · rw [if_neg hc4] at h2
          obtain rfl := Option.some.inj h2
          rw [List.length_append]
          show 1 ≤ (List.take (⌊w2 / c⌋ - 3).toNat text).length +
            ellipsis.length
          have h3 : ellipsis.length = 3 := rfl
          omega
    · rw [if_neg hc2] at h1
      obtain rfl := Option.some.inj h1
      push_neg at hc2
      obtain ⟨hlen1, hle1⟩ := hmidlen w1 hc1 hc2
      by_cases hc3 : c * (text.length : ℚ) < w2
      · rw [if_pos hc3] at h2
        obtain rfl := Option.some.inj h2
        rw [hlen1]
        exact hle1
      · rw [if_neg hc3] at h2
        by_cases hc4 : ⌊w2 / c⌋ ≤ 3
        · exfalso
          omega
        · rw [if_neg hc4] at h2
          obtain rfl := Option.some.inj h2
          push_neg at hc4
          obtain ⟨hlen2, _⟩ := hmidlen w2 hc3 hc4
          rw [hlen1, hlen2]
          omega

/-- Witness for the amended C7 at concrete inputs: per-character width 1,
text "ab", maxWidth 1 gives "." and maxWidth 3 gives "ab", and 1 <= 2. -/
theorem getShortened_length_mono_linear_witness :
    (['.'] : List Char).length ≤ (['a', 'b'] : List Char).length := by
  have e1 : getShortened (fun s => (1 : ℚ) * s.length) 1 ['a', 'b'] =
      some ['.'] := by
    rw [getShortened_linear 1 1 ['a', 'b'] one_pos (by simp)]
    norm_num
  have e2 : getShortened (fun s => (1 : ℚ) * s.length) 3 ['a', 'b'] =
      some ['a', 'b'] := by
    rw [getShortened_linear 1 3 ['a', 'b'] one_pos (by simp)]
    norm_num
  exact getShortened_length_mono_linear 1 1 3 ['a', 'b'] ['.'] ['a', 'b']
    one_pos (by simp) (by norm_num) e1 e2


/-! ## C10: the shape of every terminating result -/

lemma oneIterKeep_zero_len_zero (width : ℚ) : oneIterKeep 0 width 0 = .nan := by
  unfold oneIterKeep
  rw [show jsDiv 0 (.fin ((0 : ℕ) : ℚ)) = .nan by simp [jsDiv]]
  rfl

lemma oneIterKeep_zero_neg (width : ℚ) (len : ℕ) (hl : len ≠ 0)
    (hwid : width < 0) : oneIterKeep 0 width len = .fin 0 := by
  have hlq : ((len : ℚ)) ≠ 0 := Nat.cast_ne_zero.2 hl
  unfold oneIterKeep
  rw [show jsDiv 0 (.fin (len : ℚ)) = .fin 0 by simp [jsDiv, hlq]]
  rw [show jsDiv (0 - width) (.fin 0) = .pinf by
    rw [show (0 : ℚ) - width = -width by ring]
    simp [jsDiv, neg_pos.2 hwid]]
  rfl

lemma take_length_take (l : List Char) (j : ℕ) :
    l.take ((l.take j).length) = l.take j := by
  rw [List.length_take]
  rcases le_total j l.length with h | h
  · rw [min_eq_left h]
  · rw [min_eq_right h, List.take_length, List.take_of_length_le h]

/-- C10 counterexample: the claim quantifies over every measurement
function, but with a function that is negative on the empty string
(and zero elsewhere) at maxWidth 0, the NaN iteration empties the
candidate and the next measurement "fits", so getShortened on the
one-character text "a" returns "..." — which is none of the three
claimed shapes and is longer than the input. -/
theorem getShortened_shape_cex :
    getShortened negOnEmpty 0 ['a'] = some ['.', '.', '.'] ∧
    (['.', '.', '.'] : List Char) ≠ ['a'] ∧
    (['.', '.', '.'] : List Char) ≠ ['.'] ∧
    ¬ (['.', '.', '.'] : List Char).length ≤ (['a'] : List Char).length := by
  refine ⟨?_, by decide, by decide, by decide⟩
  have h0 : getShortened negOnEmpty 0 ['a'] =
      getShortenedAux negOnEmpty 0 (2 + 1) ['a'] false := rfl
  rw [h0]
  have hm1 : negOnEmpty ['a'] = 0 := by norm_num [negOnEmpty]
  have hk1 : oneIterKeep (negOnEmpty ['a']) 0 (['a'] : List Char).length =
      .nan := by
    rw [hm1]
    exact oneIterKeep_zero_zero 1
  rw [getShortenedAux_cont 2 false (by rw [hm1]; exact lt_irrefl 0)
    (by rw [hk1]; rfl)]
  rw [hk1]
  rw [show (['a'] : List Char).take (jsTakeCount (['a'] : List Char).length
    .nan) = [] from rfl]
  rw [show (2 : ℕ) = 1 + 1 from rfl]
  rw [getShortenedAux_break 1 true (by norm_num [negOnEmpty])]
  rfl


set_option maxHeartbeats 1600000 in
/-- Invariant-carrying form of the shape theorem, by induction on fuel:
from any loop state (a prefix of the text as candidate, the shortened
flag, and for a shortened empty candidate a non-positive width), a
returned value is the whole text, the marker ".", or a non-empty prefix
of the text of length at most length - 3 followed by the ellipsis. -/
lemma getShortenedAux_shape (measure : List Char → ℚ) (width : ℚ)
    (text : List Char) (hm : ∀ s, 0 ≤ measure s) :
    ∀ (fuel : ℕ) (short : List Char) (b : Bool) (r : List Char),
      (∃ j, short = text.take j) →
      (b = false → short = text) →
      (b = true →
        (1 ≤ short.length ∧ short.length + 3 ≤ text.length) ∨
        (short = [] ∧ width ≤ 0)) →
      getShortenedAux measure width fuel short b = some r →
      r = text ∨ r = ['.'] ∨
        ∃ k, 1 ≤ k ∧ k + 3 ≤ text.length ∧ r = text.take k ++ ellipsis := by
  intro fuel
  induction fuel with
  | zero =>
      intro short b r _ _ _ hrun
      exact absurd hrun (by simp [getShortenedAux])
  | succ n ih =>
      intro short b r hpre hb0 hb1 hrun
      rw [getShortenedAux_succ] at hrun
      by_cases hlt : measure short < width
      · rw [if_pos hlt] at hrun
        have hr := Option.some.inj hrun
        cases b with
        | false =>
            left
            rw [← hr, hb0 rfl]
            simp
        | true =>
            rcases hb1 rfl with ⟨h1len, h3len⟩ | ⟨hemp, hw0⟩
            · right
              right
              refine ⟨short.length, h1len, h3len, ?_⟩
              have hshort : text.take short.length = short := by
                obtain ⟨j, hj⟩ := hpre
                rw [hj]
                exact take_length_take text j
              rw [hshort, ← hr]
              rfl
            · exfalso
              have h0 := hm short
              rw [hemp] at hlt
              rw [hemp] at h0
              linarith
      · rw [if_neg hlt] at hrun
        by_cases hk : jsLtOne (oneIterKeep (measure short) width
            short.length) = true
        · rw [if_pos hk] at hrun
          right
          left
          exact (Option.some.inj hrun).symm
        · rw [if_neg hk] at hrun
          have hk' : jsLtOne (oneIterKeep (measure short) width
              short.length) = false := Bool.eq_false_iff.2 hk
          have hw0 : 0 ≤ measure short := hm short
          have hwidle : width ≤ measure short := not_lt.1 hlt
          have hlenle : short.length ≤ text.length := by
            obtain ⟨j, hj⟩ := hpre
            rw [hj, List.length_take]
            exact min_le_right j text.length
          rcases Nat.eq_zero_or_pos short.length with hlen0 | hlenpos
          · -- empty candidate
            have hnil : short = [] := List.length_eq_zero.1 hlen0
            rcases lt_or_eq_of_le hw0 with hwpos | hwz
            · exfalso
              apply hk
              rw [hlen0, oneIterKeep_len_zero_pos (measure short) width hwpos]
              simp only [jsLtOne, decide_eq_true_eq]
              norm_num
            · have hwid0 : width ≤ 0 := by rw [← hwz] at hwidle; exact hwidle
              have hks : oneIterKeep (measure short) width short.length =
                  .nan := by
                rw [← hwz, hlen0]
                exact oneIterKeep_zero_len_zero width
              have htk : short.take (jsTakeCount short.length
                  (oneIterKeep (measure short) width short.length)) = [] := by
                rw [hks, hnil]
                rfl
              rw [htk] at hrun
              exact ih [] true r ⟨0, by simp⟩ (fun h => Bool.noConfusion h)
                (fun _ => Or.inr ⟨rfl, hwid0⟩) hrun
          · -- non-empty candidate
            rcases lt_or_eq_of_le hw0 with hwpos | hwz
            · -- positive measured width: the genuine shrink step
              have hkp : oneIterKeep (measure short) width short.length =
                  .fin (max 0 ((short.length : ℚ) -
                    ((⌈(measure short - width) * short.length /
                      measure short⌉ : ℤ) : ℚ) - 3)) :=
                oneIterKeep_pos (measure short) width short.length
                  hlenpos.ne' hwpos
              have hcq0 : 0 ≤ ⌈(measure short - width) * short.length /
                  measure short⌉ :=
                Int.ceil_nonneg (div_nonneg
                  (mul_nonneg (sub_nonneg.2 hwidle) (Nat.cast_nonneg _))
                  hwpos.le)
              have hv1 : (1 : ℚ) ≤ max 0 ((short.length : ℚ) -
                  ((⌈(measure short - width) * short.length /
                    measure short⌉ : ℤ) : ℚ) - 3) := by
                rw [hkp] at hk'
                simp only [jsLtOne, decide_eq_false_iff_not, not_lt] at hk'
                exact hk'
              have hvv : (1 : ℚ) ≤ (short.length : ℚ) -
                  ((⌈(measure short - width) * short.length /
                    measure short⌉ : ℤ) : ℚ) - 3 := by
                rcases max_cases (0 : ℚ) ((short.length : ℚ) -
                    ((⌈(measure short - width) * short.length /
                      measure short⌉ : ℤ) : ℚ) - 3) with ⟨he, _⟩ | ⟨he, _⟩ <;>
                  rw [he] at hv1
                · linarith
                · exact hv1
              have hM1 : 1 ≤ (short.length : ℤ) -
                  ⌈(measure short - width) * short.length / measure short⌉ -
                  3 := by exact_mod_cast hvv
              have hcast : (short.length : ℚ) -
                  ((⌈(measure short - width) * short.length /
                    measure short⌉ : ℤ) : ℚ) - 3 =
                  ((((short.length : ℤ) - ⌈(measure short - width) *
                    short.length / measure short⌉ - 3 : ℤ)) : ℚ) := by
                push_cast
                ring
              have htcount : jsTakeCount short.length
                  (oneIterKeep (measure short) width short.length) =
                  ((short.length : ℤ) - ⌈(measure short - width) *
                    short.length / measure short⌉ - 3).toNat := by
                rw [hkp, max_eq_right (by linarith : (0 : ℚ) ≤
                  (short.length : ℚ) - ((⌈(measure short - width) *
                    short.length / measure short⌉ : ℤ) : ℚ) - 3), hcast]
                simp only [jsTakeCount]
                rw [Int.floor_intCast]
                rw [max_eq_right (by omega : (0 : ℤ) ≤
                  (short.length : ℤ) - ⌈(measure short - width) *
                    short.length / measure short⌉ - 3)]
                rw [min_eq_right (by omega)]
              apply ih (short.take (jsTakeCount short.length
                  (oneIterKeep (measure short) width short.length))) true r
                ?_ (fun h => Bool.noConfusion h) ?_ hrun
              · obtain ⟨j, hj⟩ := hpre
                exact ⟨min (jsTakeCount short.length
                  (oneIterKeep (measure short) width short.length)) j,
                  by rw [hj, List.take_take]⟩
              · intro _
                left
                rw [htcount]
                have hlentake : (short.take (((short.length : ℤ) -
                    ⌈(measure short - width) * short.length /
                      measure short⌉ - 3).toNat)).length =
                    (((short.length : ℤ) - ⌈(measure short - width) *
                      short.length / measure short⌉ - 3).toNat) := by
                  rw [List.length_take]
                  rw [min_eq_left (by omega)]
                rw [hlentake]
                omega
            · -- zero measured width on a non-empty candidate
              have hwid0 : width ≤ 0 := by rw [← hwz] at hwidle; exact hwidle
              rcases lt_or_eq_of_le hwid0 with hwneg | hwz2
              · exfalso
                apply hk
                rw [← hwz, oneIterKeep_zero_neg width short.length
                  hlenpos.ne' hwneg]
                simp only [jsLtOne, decide_eq_true_eq]
                norm_num
              · have hks : oneIterKeep (measure short) width short.length =
                    .nan := by
                  rw [← hwz, hwz2]
                  exact oneIterKeep_zero_zero short.length
                have htk : short.take (jsTakeCount short.length
                    (oneIterKeep (measure short) width short.length)) =
                    [] := by
                  rw [hks]
                  rfl
                rw [htk] at hrun
                exact ih [] true r ⟨0, by simp⟩ (fun h => Bool.noConfusion h)
                  (fun _ => Or.inr ⟨rfl, hwid0⟩) hrun


/-- C10 (amended): for every width-non-negative measurement function
(as the real measureText is), every maxWidth and every text, a
terminating run of getShortened returns one of exactly three shapes —
the text unchanged, the single-character marker ".", or a non-empty
prefix of the text of length at most length(text) - 3 followed by the
three-character ellipsis — and hence, for non-empty input, a result
never longer than the input.  (The unamended claim, quantifying over
arbitrary measurement functions, fails for a measure that is negative
on the empty string.) -/
theorem getShortened_shape (measure : List Char → ℚ) (width : ℚ)
    (text r : List Char) (hm : ∀ s, 0 ≤ measure s)
    (h : getShortened measure width text = some r) :
    (r = text ∨ r = ['.'] ∨
      ∃ k, 1 ≤ k ∧ k + 3 ≤ text.length ∧ r = text.take k ++ ellipsis) ∧
    (text ≠ [] → r.length ≤ text.length) := by
  have hshape := getShortenedAux_shape measure width text hm
    (text.length + 2) text false r
    ⟨text.length, (List.take_length text).symm⟩ (fun _ => rfl)
    (fun hff => Bool.noConfusion hff) h
  refine ⟨hshape, ?_⟩
  intro hne
  rcases hshape with rfl | rfl | ⟨k, hk1, hk3, rfl⟩
  · exact le_refl _
  · have hp := List.length_pos.2 hne
    simpa using hp
  · rw [List.length_append, List.length_take]
    have he : ellipsis.length = 3 := rfl
    have hmin := min_le_left k text.length
    omega

/-- Witness for the amended C10 at a concrete input: the per-character
measure is non-negative, "a" fits width 5 and comes back unchanged,
which is the first of the three shapes. -/
theorem getShortened_shape_witness :
    ((['a'] : List Char) = ['a'] ∨ (['a'] : List Char) = ['.'] ∨
      ∃ k, 1 ≤ k ∧ k + 3 ≤ (['a'] : List Char).length ∧
        (['a'] : List Char) = (['a'] : List Char).take k ++ ellipsis) ∧
    ((['a'] : List Char) ≠ [] →
      (['a'] : List Char).length ≤ (['a'] : List Char).length) :=
  getShortened_shape (fun s => (s.length : ℚ)) 5 ['a'] ['a']
    (fun s => Nat.cast_nonneg s.length)
    (by
      show getShortenedAux (fun s => (s.length : ℚ)) 5 (1 + 1 + 1)
        ['a'] false = some ['a']
      rw [getShortenedAux_break (1 + 1) false (by norm_num)]
      rfl)

end AxisLabelsShorten
